import Mathlib

/-!
Shallow embedding of the `drs-primitives` geometry core (`src/lib.rs`).

Rust `f64` values are modelled as real numbers (exact-real semantics);
boolean-returning Rust functions become `Prop`-valued predicates.  One
deliberate modelling decision is documented at `Segment.intersectionGeom`:
the source divides by the determinant `over` unconditionally and relies on
IEEE NaN/Inf propagation to make the subsequent `contains` checks fail when
`over == 0`; we model that observable behaviour with an explicit
`over = 0 → none` guard, as the spec itself describes (§7, §9).
-/

noncomputable section
open Classical

/-- Numerical-epsilon tolerance, `const TOLERANCE: f64 = 1e-9` in the source. -/
def TOLERANCE : ℝ := 1e-9

/-- Spatial tolerance, `static SPATIAL_TOLERANCE: f64 = 0.5e-3` in the source
(declared there but never used by the geometry logic). -/
def SPATIAL_TOLERANCE : ℝ := 0.5e-3

/-- `struct Coord { lat: f64, lon: f64 }`. -/
structure Coord where
  lat : ℝ
  lon : ℝ

/-- `impl Sub for Coord`: component-wise subtraction. -/
instance : Sub Coord := ⟨fun s o => ⟨s.lat - o.lat, s.lon - o.lon⟩⟩

/-- `impl Add for Coord`: component-wise addition. -/
instance : Add Coord := ⟨fun s o => ⟨s.lat + o.lat, s.lon + o.lon⟩⟩

/-- `impl Div<f64> for Coord`: component-wise division by a scalar. -/
instance : HDiv Coord ℝ Coord := ⟨fun s d => ⟨s.lat / d, s.lon / d⟩⟩

/-- `impl Mul<f64> for Coord`: component-wise multiplication by a scalar. -/
instance : HMul Coord ℝ Coord := ⟨fun s m => ⟨s.lat * m, s.lon * m⟩⟩

@[simp] theorem Coord.sub_lat (p q : Coord) : (p - q).lat = p.lat - q.lat := rfl

@[simp] theorem Coord.sub_lon (p q : Coord) : (p - q).lon = p.lon - q.lon := rfl

@[simp] theorem Coord.add_lat (p q : Coord) : (p + q).lat = p.lat + q.lat := rfl

@[simp] theorem Coord.add_lon (p q : Coord) : (p + q).lon = p.lon + q.lon := rfl

@[simp] theorem Coord.div_lat (p : Coord) (d : ℝ) : (p / d).lat = p.lat / d := rfl

@[simp] theorem Coord.div_lon (p : Coord) (d : ℝ) : (p / d).lon = p.lon / d := rfl

@[simp] theorem Coord.mul_lat (p : Coord) (m : ℝ) : (p * m).lat = p.lat * m := rfl

@[simp] theorem Coord.mul_lon (p : Coord) (m : ℝ) : (p * m).lon = p.lon * m := rfl

/-- `impl Ord for Coord`: primary key `lon`, secondary key `lat`. -/
def Coord.cmp (s o : Coord) : Ordering :=
  if s.lon = o.lon then
    if s.lat < o.lat then Ordering.lt
    else if o.lat < s.lat then Ordering.gt
    else Ordering.eq
  else
    if s.lon < o.lon then Ordering.lt else Ordering.gt

/-- `enum Direction { Forward, Backward }`. -/
inductive Direction where
  | Forward
  | Backward

/-- `Coord::distance`: haversine great-circle distance in km.  The source
computes `12742.0 * a.sqrt().asin()` with
`a = 0.5 - cos((o.lat-s.lat)p)/2 + cos(s.lat p)cos(o.lat p)(1 - cos((o.lon-s.lon)p))/2`,
`p = PI/180`.  The Rust parameter is named `from`, a Lean keyword, renamed
to `other` here. -/
def Coord.distance (s other : Coord) : ℝ :=
  let p := Real.pi / 180
  let a := 0.5 - Real.cos ((other.lat - s.lat) * p) / 2 +
    Real.cos (s.lat * p) * Real.cos (other.lat * p) *
      (1 - Real.cos ((other.lon - s.lon) * p)) / 2
  12742 * Real.arcsin (Real.sqrt a)

/-- `Coord::norm`: planar Euclidean magnitude. -/
def Coord.norm (s : Coord) : ℝ :=
  Real.sqrt (s.lat * s.lat + s.lon * s.lon)

/-- `Coord::normalized`: `*self / self.norm()`. -/
def Coord.normalized (s : Coord) : Coord :=
  s / s.norm

/-- `Coord::dot`: planar dot product, `o.lat*self.lat + o.lon*self.lon`. -/
def Coord.dot (s o : Coord) : ℝ :=
  o.lat * s.lat + o.lon * s.lon

/-- `struct Segment { a: Coord, b: Coord, layer: Option<i8> }`. -/
structure Segment where
  a : Coord
  b : Coord
  layer : Option ℤ

/-- `Segment::contains`: the point is inside the segment's bounding box
expanded by `TOLERANCE`, and the cross product of `point - a` with `b - a`
is within `TOLERANCE` of zero.  The source returns `false` early when any
bounding-box condition fails; as a `Prop` that early return becomes the
negated disjunction. -/
def Segment.contains (s : Segment) (point : Coord) : Prop :=
  ¬(point.lon < min s.a.lon s.b.lon - TOLERANCE
      ∨ point.lon > max s.a.lon s.b.lon + TOLERANCE
      ∨ point.lat < min s.a.lat s.b.lat - TOLERANCE
      ∨ point.lat > max s.a.lat s.b.lat + TOLERANCE)
  ∧ |(point - s.a).lon * (s.b - s.a).lat - (point - s.a).lat * (s.b - s.a).lon|
      < TOLERANCE

/-- `Segment::strictly_contains`: rejects points within `TOLERANCE` of either
endpoint, then defers to `contains`. -/
def Segment.strictly_contains (s : Segment) (point : Coord) : Prop :=
  ¬(|point.lat - s.a.lat| < TOLERANCE ∧ |point.lon - s.a.lon| < TOLERANCE)
  ∧ ¬(|point.lat - s.b.lat| < TOLERANCE ∧ |point.lon - s.b.lon| < TOLERANCE)
  ∧ s.contains point

/-- `Segment::is_contiguous`: `false` when the two segments have identical
ordered endpoints, otherwise true iff some endpoint of one lies on the other. -/
def Segment.is_contiguous (s w : Segment) : Prop :=
  ¬(s.a = w.a ∧ s.b = w.b)
  ∧ (s.contains w.a ∨ s.contains w.b ∨ w.contains s.a ∨ w.contains s.b)

/-- Geometric part of `Segment::intersection` (everything after the layer
check): two-line Cramer solve, then `contains` on both segments.  The source
computes `ans` by dividing by `over` unconditionally; when `over == 0` the
IEEE result is NaN/Inf on every component and both `contains` checks fail,
so we model the `over = 0` case with an explicit `none`. -/
def Segment.intersectionGeom (s other : Segment) : Option Coord :=
  let p1 := s.a
  let p2 := s.b
  let q1 := other.a
  let q2 := other.b
  let ap : ℝ := p2.lon - p1.lon
  let bp : ℝ := p1.lat - p2.lat
  let cp : ℝ := -p2.lat * ap - p2.lon * bp
  let aq : ℝ := q2.lon - q1.lon
  let bq : ℝ := q1.lat - q2.lat
  let cq : ℝ := -q2.lat * aq - q2.lon * bq
  let over : ℝ := ap * bq - aq * bp
  if over = 0 then none
  else
    let ans : Coord := ⟨(bp * cq - bq * cp) / over, (aq * cp - ap * cq) / over⟩
    if s.contains ans ∧ other.contains ans then some ans else none

/-- `Segment::intersection`: the source first runs
`if let Some(_) = self.layer { if !self.is_contiguous(other) && self.layer != other.layer { return None; } }`
and then the geometric test. -/
def Segment.intersection (s other : Segment) : Option Coord :=
  if s.layer.isSome ∧ ¬s.is_contiguous other ∧ s.layer ≠ other.layer then none
  else s.intersectionGeom other

/-- `Segment::length`. -/
def Segment.length (s : Segment) : ℝ :=
  s.a.distance s.b

/-- The projection expression `normb * normb.dot(a) + self.a` computed inside
`Segment::distance_from_point` (its local `res`). -/
def Segment.projFoot (s : Segment) (point : Coord) : Coord :=
  let normb := (s.b - s.a).normalized
  let a := point - s.a
  normb * normb.dot a + s.a

/-- `Segment::distance_from_point`: returns the projection of the point onto
the segment's line when that projection is `contains`-ed, otherwise the
endpoint closer by haversine distance; paired with the haversine distance. -/
def Segment.distance_from_point (s : Segment) (point : Coord) : ℝ × Coord :=
  let normb := (s.b - s.a).normalized
  let a := point - s.a
  let res := normb * normb.dot a + s.a
  if s.contains res then (res.distance point, res)
  else
    let distance_a := point.distance s.a
    let distance_b := point.distance s.b
    if distance_a < distance_b then (distance_a, s.a) else (distance_b, s.b)

/-- `Segment::reverse`: swaps endpoints, keeps the layer. -/
def Segment.reverse (s : Segment) : Segment :=
  ⟨s.b, s.a, s.layer⟩

/-- `struct Road`. -/
structure Road where
  segments : List Segment
  name : Option String
  forbidden_to_pedestrians : Bool
  forbidden_to_bikes : Bool

/-- `f64::MAX`, the initial minimum in `Road::distance_from_nearest_point`. -/
def F64_MAX : ℝ := 2 ^ (1024 : ℕ) - 2 ^ (971 : ℕ)

/-- `Road::center`: midpoint of the first segment's start and the last
segment's end.  The source indexes `segments[0]` and `segments[len-1]` and
panics on an empty road; the out-of-bounds access is modelled with `none`. -/
def Road.center (r : Road) : Option Coord :=
  match r.segments.head?, r.segments.getLast? with
  | some first, some last =>
      some ⟨(first.a.lat + last.b.lat) / 2, (first.a.lon + last.b.lon) / 2⟩
  | _, _ => none

/-- `Road::length`: the accumulation loop `total_length += segment.length()`. -/
def Road.length (r : Road) : ℝ :=
  r.segments.foldl (fun total_length segment => total_length + segment.length) 0

/-- `Road::distance_from_nearest_point`: fold of the minimum-tracking loop,
starting from `(f64::MAX, Coord { lat: 0.0, lon: 0.0 })`. -/
def Road.distance_from_nearest_point (r : Road) (point : Coord) : ℝ × Coord :=
  r.segments.foldl
    (fun m segment =>
      let tmp := segment.distance_from_point point
      if tmp.1 < m.1 then tmp else m)
    (F64_MAX, ⟨0, 0⟩)

/-- Forward loop body of `Road::length_from`: accumulate segment lengths until
the first segment that strictly contains the point, then add
`segment.a.distance(point)` and stop. -/
def walkForward (point : Coord) : List Segment → ℝ
  | [] => 0
  | segment :: rest =>
      if segment.strictly_contains point then segment.a.distance point
      else segment.length + walkForward point rest

/-- Backward loop body of `Road::length_from` (iterates the reversed list and
adds `segment.reverse().a.distance(point)` at the containing segment). -/
def walkBackward (point : Coord) : List Segment → ℝ
  | [] => 0
  | segment :: rest =>
      if segment.strictly_contains point then (segment.reverse).a.distance point
      else segment.length + walkBackward point rest

/-- `Road::length_from`. -/
def Road.length_from (r : Road) (point : Coord) (direction : Direction) : ℝ :=
  match direction with
  | Direction.Forward => walkForward point r.segments
  | Direction.Backward => walkBackward point r.segments.reverse

/-- Spec-side notion used by the claims: a point of the segment, i.e.
`a + (b - a) * t` for some `t ∈ [0, 1]`. -/
def Segment.onSeg (s : Segment) (y : Coord) : Prop :=
  ∃ t : ℝ, 0 ≤ t ∧ t ≤ 1 ∧ y = s.a + (s.b - s.a) * t

theorem TOLERANCE_pos : (0 : ℝ) < TOLERANCE := by norm_num [TOLERANCE]

theorem Coord.eq_iff {p q : Coord} : p = q ↔ p.lat = q.lat ∧ p.lon = q.lon := by
  cases p
  cases q
  simp

theorem Segment.contains_a (s : Segment) : s.contains s.a := by
  have ht := TOLERANCE_pos
  refine ⟨?_, ?_⟩
  · push_neg
    have h1 := min_le_left s.a.lon s.b.lon
    have h2 := le_max_left s.a.lon s.b.lon
    have h3 := min_le_left s.a.lat s.b.lat
    have h4 := le_max_left s.a.lat s.b.lat
    exact ⟨by linarith, by linarith, by linarith, by linarith⟩
  · simp only [Coord.sub_lat, Coord.sub_lon, sub_self, zero_mul, sub_zero, abs_zero]
    exact ht

theorem Segment.contains_b (s : Segment) : s.contains s.b := by
  have ht := TOLERANCE_pos
  refine ⟨?_, ?_⟩
  · push_neg
    have h1 := min_le_right s.a.lon s.b.lon
    have h2 := le_max_right s.a.lon s.b.lon
    have h3 := min_le_right s.a.lat s.b.lat
    have h4 := le_max_right s.a.lat s.b.lat
    exact ⟨by linarith, by linarith, by linarith, by linarith⟩
  · have hz : (s.b - s.a).lon * (s.b - s.a).lat - (s.b - s.a).lat * (s.b - s.a).lon = 0 := by
      ring
    rw [hz, abs_zero]
    exact ht

theorem Segment.not_strictly_contains_a (s : Segment) : ¬s.strictly_contains s.a := by
  intro h
  exact h.1 ⟨by simpa using TOLERANCE_pos, by simpa using TOLERANCE_pos⟩

theorem Segment.not_strictly_contains_b (s : Segment) : ¬s.strictly_contains s.b := by
  intro h
  exact h.2.1 ⟨by simpa using TOLERANCE_pos, by simpa using TOLERANCE_pos⟩

/-- C8: both endpoints of a segment satisfy `contains`, and neither satisfies
`strictly_contains`. -/
theorem endpoints_contained_not_strict (s : Segment) :
    s.contains s.a ∧ s.contains s.b
    ∧ ¬s.strictly_contains s.a ∧ ¬s.strictly_contains s.b :=
  ⟨s.contains_a, s.contains_b, s.not_strictly_contains_a, s.not_strictly_contains_b⟩

/-- Instance of the C8 theorem on the segment used by the repository's tests. -/
theorem endpoints_contained_not_strict_check :
    (Segment.mk ⟨1, 1⟩ ⟨4, 4⟩ none).contains ⟨1, 1⟩
    ∧ (Segment.mk ⟨1, 1⟩ ⟨4, 4⟩ none).contains ⟨4, 4⟩
    ∧ ¬(Segment.mk ⟨1, 1⟩ ⟨4, 4⟩ none).strictly_contains ⟨1, 1⟩
    ∧ ¬(Segment.mk ⟨1, 1⟩ ⟨4, 4⟩ none).strictly_contains ⟨4, 4⟩ :=
  endpoints_contained_not_strict (Segment.mk ⟨1, 1⟩ ⟨4, 4⟩ none)

/-- C7: `Coord.cmp` realises the lexicographic strict order with primary key
`lon` and secondary key `lat`, and compares `.eq` exactly on identical
points. -/
theorem cmp_lexicographic (p q : Coord) :
    (p.cmp q = Ordering.lt ↔ p.lon < q.lon ∨ (p.lon = q.lon ∧ p.lat < q.lat))
    ∧ (p.cmp q = Ordering.eq ↔ p = q)
    ∧ (p.cmp q = Ordering.gt ↔ q.lon < p.lon ∨ (p.lon = q.lon ∧ q.lat < p.lat)) := by
  unfold Coord.cmp
  split_ifs with h h1 h2 h3
  · refine ⟨iff_of_true rfl (Or.inr ⟨h, h1⟩), ?_, ?_⟩
    · refine iff_of_false (by simp) ?_
      intro he
      rw [he] at h1
      exact lt_irrefl _ h1
    · refine iff_of_false (by simp) ?_
      rintro (hl | ⟨-, hl⟩)
      · exact absurd h (ne_of_gt hl)
      · exact absurd h1 (not_lt_of_gt hl)
  · refine ⟨?_, ?_, iff_of_true rfl (Or.inr ⟨h, h2⟩)⟩
    · refine iff_of_false (by simp) ?_
      rintro (hl | ⟨-, hl⟩)
      · exact absurd h (ne_of_lt hl)
      · exact absurd h2 (not_lt_of_gt hl)
    · refine iff_of_false (by simp) ?_
      intro he
      rw [he] at h2
      exact lt_irrefl _ h2
  · have hlat : p.lat = q.lat := le_antisymm (not_lt.mp h2) (not_lt.mp h1)
    refine ⟨?_, iff_of_true rfl (Coord.eq_iff.mpr ⟨hlat, h⟩), ?_⟩
    · refine iff_of_false (by simp) ?_
      rintro (hl | ⟨-, hl⟩)
      · exact absurd h (ne_of_lt hl)
      · exact absurd hl (by rw [hlat]; exact lt_irrefl _)
    · refine iff_of_false (by simp) ?_
      rintro (hl | ⟨-, hl⟩)
      · exact absurd h (ne_of_gt hl)
      · exact absurd hl (by rw [hlat]; exact lt_irrefl _)
  · refine ⟨iff_of_true rfl (Or.inl h3), ?_, ?_⟩
    · refine iff_of_false (by simp) ?_
      intro he
      exact h (by rw [he])
    · refine iff_of_false (by simp) ?_
      rintro (hl | ⟨he, -⟩)
      · exact lt_asymm h3 hl
      · exact h he
  · have hl : q.lon < p.lon := lt_of_le_of_ne (not_lt.mp h3) (fun he => h he.symm)
    refine ⟨?_, ?_, iff_of_true rfl (Or.inl hl)⟩
    · refine iff_of_false (by simp) ?_
      rintro (hc | ⟨he, -⟩)
      · exact h3 hc
      · exact h he
    · refine iff_of_false (by simp) ?_
      intro he
      exact h (by rw [he])

/-- Instance of the C7 theorem: `(lat 5, lon 1)` is below `(lat 0, lon 2)`
because the primary key is the longitude. -/
theorem cmp_lexicographic_check :
    Coord.cmp ⟨5, 1⟩ ⟨0, 2⟩ = Ordering.lt :=
  (cmp_lexicographic ⟨5, 1⟩ ⟨0, 2⟩).1.mpr (Or.inl (by norm_num))

/-- C10: on a road whose segment list is empty, `distance_from_nearest_point`
returns the initial accumulator `(f64::MAX, (0, 0))` for every query point,
`length` returns `0`, and `center` (which indexes the segment list) has no
value. -/
theorem empty_road_queries (r : Road) (h : r.segments = []) (p : Coord) :
    r.distance_from_nearest_point p = (F64_MAX, ⟨0, 0⟩)
    ∧ r.length = 0 ∧ r.center = none := by
  unfold Road.distance_from_nearest_point Road.length Road.center
  rw [h]
  simp

/-- Instance of the C10 theorem on a concrete empty road. -/
theorem empty_road_queries_check :
    (Road.mk [] none false false).distance_from_nearest_point ⟨0, 0⟩ = (F64_MAX, ⟨0, 0⟩)
    ∧ (Road.mk [] none false false).length = 0
    ∧ (Road.mk [] none false false).center = none :=
  empty_road_queries (Road.mk [] none false false) rfl ⟨0, 0⟩

theorem Coord.distance_eq (s o : Coord) :
    s.distance o = 12742 * Real.arcsin (Real.sqrt
      (0.5 - Real.cos ((o.lat - s.lat) * (Real.pi / 180)) / 2 +
        Real.cos (s.lat * (Real.pi / 180)) * Real.cos (o.lat * (Real.pi / 180)) *
          (1 - Real.cos ((o.lon - s.lon) * (Real.pi / 180))) / 2)) := rfl

/-- C4 (amended part): the haversine distance is symmetric, and the distance
from a point to itself is `0`. -/
theorem distance_symm_and_self (p q : Coord) :
    p.distance q = q.distance p ∧ p.distance p = 0 := by
  constructor
  · rw [Coord.distance_eq, Coord.distance_eq]
    congr 2
    rw [show (p.lat - q.lat) * (Real.pi / 180)
        = -((q.lat - p.lat) * (Real.pi / 180)) by ring, Real.cos_neg,
      show (p.lon - q.lon) * (Real.pi / 180)
        = -((q.lon - p.lon) * (Real.pi / 180)) by ring, Real.cos_neg]
    ring_nf
  · rw [Coord.distance_eq]
    rw [show (p.lat - p.lat) * (Real.pi / 180) = 0 by ring,
      show (p.lon - p.lon) * (Real.pi / 180) = 0 by ring, Real.cos_zero]
    norm_num [Real.sqrt_zero, Real.arcsin_zero]

/-- C4 counterexample: the two distinct coordinates `(lat 90, lon 0)` and
`(lat 90, lon 90)` (both at the north pole) are at haversine distance `0`,
so the distance being zero does not imply the points are identical. -/
theorem distance_zero_distinct :
    (Coord.mk 90 0).distance (Coord.mk 90 90) = 0
    ∧ Coord.mk 90 0 ≠ Coord.mk 90 90 := by
  constructor
  · simp only [Coord.distance_eq]
    rw [show ((90 : ℝ) - 90) * (Real.pi / 180) = 0 by ring,
      show ((90 : ℝ)) * (Real.pi / 180) = Real.pi / 2 by ring,
      show ((90 : ℝ) - 0) * (Real.pi / 180) = Real.pi / 2 by ring,
      Real.cos_zero, Real.cos_pi_div_two]
    norm_num [Real.sqrt_zero, Real.arcsin_zero]
  · intro h
    have h2 := (Coord.eq_iff.mp h).2
    norm_num at h2

theorem Coord.distance_nonneg (p q : Coord) : 0 ≤ p.distance q := by
  rw [Coord.distance_eq]
  exact mul_nonneg (by norm_num) (Real.arcsin_nonneg.mpr (Real.sqrt_nonneg _))

theorem Segment.distance_from_point_def (s : Segment) (x : Coord) :
    s.distance_from_point x =
      if s.contains (s.projFoot x) then ((s.projFoot x).distance x, s.projFoot x)
      else if x.distance s.a < x.distance s.b then (x.distance s.a, s.a)
        else (x.distance s.b, s.b) := rfl

theorem Segment.contains_distance_from_point (s : Segment) (x : Coord) :
    s.contains (s.distance_from_point x).2 := by
  rw [Segment.distance_from_point_def]
  split_ifs with h1 h2
  · exact h1
  · exact s.contains_a
  · exact s.contains_b

theorem proj_component (t dl dn e al an sa : ℝ)
    (ht2 : t * t = dl * dl + dn * dn) (htne : t ≠ 0) :
    e / t * (al * (dl / t) + an * (dn / t)) + sa
      = sa + e * ((al * dl + an * dn) / (dl * dl + dn * dn)) := by
  rw [← ht2]
  field_simp
  ring

/-- The `res` point of `Segment::distance_from_point`, rewritten without the
square root: it is the classical foot of the perpendicular
`a + ((x-a)·(b-a) / ‖b-a‖²) (b-a)`, valid when the segment is not
degenerate. -/
theorem Segment.projFoot_formula (s : Segment) (x : Coord)
    (hN : (s.b.lat - s.a.lat) * (s.b.lat - s.a.lat)
        + (s.b.lon - s.a.lon) * (s.b.lon - s.a.lon) ≠ 0) :
    s.projFoot x = ⟨
      s.a.lat + (s.b.lat - s.a.lat) *
        (((x.lat - s.a.lat) * (s.b.lat - s.a.lat) + (x.lon - s.a.lon) * (s.b.lon - s.a.lon))
          / ((s.b.lat - s.a.lat) * (s.b.lat - s.a.lat)
              + (s.b.lon - s.a.lon) * (s.b.lon - s.a.lon))),
      s.a.lon + (s.b.lon - s.a.lon) *
        (((x.lat - s.a.lat) * (s.b.lat - s.a.lat) + (x.lon - s.a.lon) * (s.b.lon - s.a.lon))
          / ((s.b.lat - s.a.lat) * (s.b.lat - s.a.lat)
              + (s.b.lon - s.a.lon) * (s.b.lon - s.a.lon)))⟩ := by
  have h0 : (0 : ℝ) ≤ (s.b.lat - s.a.lat) * (s.b.lat - s.a.lat)
      + (s.b.lon - s.a.lon) * (s.b.lon - s.a.lon) :=
    add_nonneg (mul_self_nonneg _) (mul_self_nonneg _)
  have ht2 : Real.sqrt ((s.b.lat - s.a.lat) * (s.b.lat - s.a.lat)
        + (s.b.lon - s.a.lon) * (s.b.lon - s.a.lon))
      * Real.sqrt ((s.b.lat - s.a.lat) * (s.b.lat - s.a.lat)
        + (s.b.lon - s.a.lon) * (s.b.lon - s.a.lon))
      = (s.b.lat - s.a.lat) * (s.b.lat - s.a.lat)
        + (s.b.lon - s.a.lon) * (s.b.lon - s.a.lon) := Real.mul_self_sqrt h0
  have htne : Real.sqrt ((s.b.lat - s.a.lat) * (s.b.lat - s.a.lat)
      + (s.b.lon - s.a.lon) * (s.b.lon - s.a.lon)) ≠ 0 := by
    intro h
    exact hN (by rw [← ht2, h, mul_zero])
  apply Coord.eq_iff.mpr
  constructor
  · unfold Segment.projFoot Coord.normalized Coord.norm Coord.dot
    simp only [Coord.mul_lat, Coord.add_lat, Coord.div_lat, Coord.div_lon,
      Coord.sub_lat, Coord.sub_lon]
    exact proj_component _ _ _ _ _ _ _ ht2 htne
  · unfold Segment.projFoot Coord.normalized Coord.norm Coord.dot
    simp only [Coord.mul_lon, Coord.add_lon, Coord.div_lat, Coord.div_lon,
      Coord.sub_lat, Coord.sub_lon]
    exact proj_component _ _ _ _ _ _ _ ht2 htne

theorem proj_min_generic (dl dn xlat xlon salat salon t : ℝ)
    (hN : dl * dl + dn * dn ≠ 0) :
    (salat + dl * (((xlat - salat) * dl + (xlon - salon) * dn) / (dl * dl + dn * dn)) - xlat)
      * (salat + dl * (((xlat - salat) * dl + (xlon - salon) * dn) / (dl * dl + dn * dn)) - xlat)
    + (salon + dn * (((xlat - salat) * dl + (xlon - salon) * dn) / (dl * dl + dn * dn)) - xlon)
      * (salon + dn * (((xlat - salat) * dl + (xlon - salon) * dn) / (dl * dl + dn * dn)) - xlon)
    ≤ (salat + dl * t - xlat) * (salat + dl * t - xlat)
      + (salon + dn * t - xlon) * (salon + dn * t - xlon) := by
  have h0 : (0 : ℝ) ≤ dl * dl + dn * dn :=
    add_nonneg (mul_self_nonneg _) (mul_self_nonneg _)
  have key : (salat + dl * t - xlat) * (salat + dl * t - xlat)
      + (salon + dn * t - xlon) * (salon + dn * t - xlon)
      - ((salat + dl * (((xlat - salat) * dl + (xlon - salon) * dn) / (dl * dl + dn * dn)) - xlat)
          * (salat + dl * (((xlat - salat) * dl + (xlon - salon) * dn) / (dl * dl + dn * dn)) - xlat)
        + (salon + dn * (((xlat - salat) * dl + (xlon - salon) * dn) / (dl * dl + dn * dn)) - xlon)
          * (salon + dn * (((xlat - salat) * dl + (xlon - salon) * dn) / (dl * dl + dn * dn)) - xlon))
      = ((dl * dl + dn * dn) * t - ((xlat - salat) * dl + (xlon - salon) * dn)) ^ 2
          / (dl * dl + dn * dn) := by
    field_simp
    ring
  have hnn : 0 ≤ ((dl * dl + dn * dn) * t - ((xlat - salat) * dl + (xlon - salon) * dn)) ^ 2
      / (dl * dl + dn * dn) := div_nonneg (sq_nonneg _) h0
  linarith

theorem projFoot_min (s : Segment) (x y : Coord)
    (hN : (s.b.lat - s.a.lat) * (s.b.lat - s.a.lat)
        + (s.b.lon - s.a.lon) * (s.b.lon - s.a.lon) ≠ 0)
    (hy : s.onSeg y) :
    (s.projFoot x - x).norm ≤ (y - x).norm := by
  obtain ⟨t, -, -, rfl⟩ := hy
  rw [Segment.projFoot_formula s x hN]
  unfold Coord.norm
  apply Real.sqrt_le_sqrt
  simp only [Coord.sub_lat, Coord.sub_lon, Coord.add_lat, Coord.add_lon,
    Coord.mul_lat, Coord.mul_lon]
  exact proj_min_generic (s.b.lat - s.a.lat) (s.b.lon - s.a.lon) x.lat x.lon
    s.a.lat s.a.lon t hN

/-- C2 (amended): the returned point always satisfies `contains`; when the
orthogonal projection of `x` onto the segment's line is `contains`-ed, the
result is that projection with its haversine distance, and the projection's
flat distance to `x` is minimal over the whole segment; otherwise the result
is the endpoint closer by haversine distance — which need not be the flat
nearest point of the segment. -/
theorem distance_from_point_spec (s : Segment) (x : Coord) :
    s.contains (s.distance_from_point x).2
    ∧ (s.contains (s.projFoot x) →
        s.distance_from_point x = ((s.projFoot x).distance x, s.projFoot x)
        ∧ ∀ y, s.onSeg y →
            ((s.distance_from_point x).2 - x).norm ≤ (y - x).norm)
    ∧ (¬s.contains (s.projFoot x) →
        s.distance_from_point x =
          if x.distance s.a < x.distance s.b then (x.distance s.a, s.a)
          else (x.distance s.b, s.b)) := by
  refine ⟨s.contains_distance_from_point x, ?_, ?_⟩
  · intro h
    have hval : s.distance_from_point x = ((s.projFoot x).distance x, s.projFoot x) := by
      rw [Segment.distance_from_point_def, if_pos h]
    refine ⟨hval, ?_⟩
    intro y hy
    rw [hval]
    show (s.projFoot x - x).norm ≤ (y - x).norm
    by_cases hN : (s.b.lat - s.a.lat) * (s.b.lat - s.a.lat)
        + (s.b.lon - s.a.lon) * (s.b.lon - s.a.lon) = 0
    · obtain ⟨t, -, -, rfl⟩ := hy
      have h1 : (s.b.lat - s.a.lat) * (s.b.lat - s.a.lat) = 0 :=
        le_antisymm (by nlinarith [mul_self_nonneg (s.b.lon - s.a.lon)])
          (mul_self_nonneg _)
      have h2 : (s.b.lon - s.a.lon) * (s.b.lon - s.a.lon) = 0 :=
        le_antisymm (by nlinarith [mul_self_nonneg (s.b.lat - s.a.lat)])
          (mul_self_nonneg _)
      have hdl : s.b.lat - s.a.lat = 0 := mul_self_eq_zero.mp h1
      have hdn : s.b.lon - s.a.lon = 0 := mul_self_eq_zero.mp h2
      have hfoot : s.projFoot x = s.a := by
        apply Coord.eq_iff.mpr
        constructor
        · unfold Segment.projFoot Coord.normalized Coord.norm Coord.dot
          simp only [Coord.mul_lat, Coord.add_lat, Coord.div_lat, Coord.div_lon,
            Coord.sub_lat, Coord.sub_lon]
          rw [hdl]
          simp
        · unfold Segment.projFoot Coord.normalized Coord.norm Coord.dot
          simp only [Coord.mul_lon, Coord.add_lon, Coord.div_lat, Coord.div_lon,
            Coord.sub_lat, Coord.sub_lon]
          rw [hdn]
          simp
      have hyy : s.a + (s.b - s.a) * t = s.a := by
        apply Coord.eq_iff.mpr
        constructor
        · simp [hdl]
        · simp [hdn]
      rw [hfoot, hyy]
    · exact projFoot_min s x y hN hy
  · intro h
    rw [Segment.distance_from_point_def, if_neg h]

/-- Instance of the C2 amended theorem on the repository's
`nearest_point_from_segment_near_test` data: the projection branch returns
the foot `(2,2)`. -/
theorem distance_from_point_spec_check :
    (Segment.mk ⟨1, 1⟩ ⟨4, 4⟩ none).contains
        ((Segment.mk ⟨1, 1⟩ ⟨4, 4⟩ none).distance_from_point ⟨1, 3⟩).2
    ∧ (Segment.mk ⟨1, 1⟩ ⟨4, 4⟩ none).distance_from_point ⟨1, 3⟩
        = (((Segment.mk ⟨1, 1⟩ ⟨4, 4⟩ none).projFoot ⟨1, 3⟩).distance ⟨1, 3⟩,
            (Segment.mk ⟨1, 1⟩ ⟨4, 4⟩ none).projFoot ⟨1, 3⟩) := by
  have hfoot : (Segment.mk ⟨1, 1⟩ ⟨4, 4⟩ none).projFoot ⟨1, 3⟩ = ⟨2, 2⟩ := by
    rw [Segment.projFoot_formula _ _ (by norm_num)]
    apply Coord.eq_iff.mpr
    constructor <;> norm_num
  have hcont : (Segment.mk ⟨1, 1⟩ ⟨4, 4⟩ none).contains
      ((Segment.mk ⟨1, 1⟩ ⟨4, 4⟩ none).projFoot ⟨1, 3⟩) := by
    rw [hfoot]
    refine ⟨?_, ?_⟩
    · rintro (hb | hb | hb | hb) <;> norm_num [TOLERANCE] at hb
    · norm_num [TOLERANCE]
  exact ⟨(distance_from_point_spec _ _).1,
    ((distance_from_point_spec _ _).2.1 hcont).1⟩

/-- C2 counterexample: for the segment from `(lat 89, lon 5)` to
`(lat 90, lon 10)` and the query point `(lat 90, lon 0)`, the projection
falls outside the segment, and the endpoint branch returns `b = (90,10)`
because its haversine distance to the query point is `0` (both are at the
pole); yet the other endpoint `a = (89,5)` is a point of the segment that is
strictly closer in flat distance, so the returned point does not minimise
the flat distance over the segment. -/
theorem distance_from_point_not_flat_min :
    ((Segment.mk ⟨89, 5⟩ ⟨90, 10⟩ none).distance_from_point ⟨90, 0⟩).2 = ⟨90, 10⟩
    ∧ (Segment.mk ⟨89, 5⟩ ⟨90, 10⟩ none).onSeg ⟨89, 5⟩
    ∧ ((⟨89, 5⟩ : Coord) - ⟨90, 0⟩).norm
        < (((Segment.mk ⟨89, 5⟩ ⟨90, 10⟩ none).distance_from_point ⟨90, 0⟩).2
            - ⟨90, 0⟩).norm := by
  have hfoot : (Segment.mk ⟨89, 5⟩ ⟨90, 10⟩ none).projFoot ⟨90, 0⟩
      = ⟨1145 / 13, 5 / 13⟩ := by
    rw [Segment.projFoot_formula _ _ (by norm_num)]
    apply Coord.eq_iff.mpr
    constructor <;> norm_num
  have hnc : ¬(Segment.mk ⟨89, 5⟩ ⟨90, 10⟩ none).contains ⟨1145 / 13, 5 / 13⟩ := by
    rintro ⟨hbox, -⟩
    exact hbox (by right; right; left; norm_num [TOLERANCE])
  have hdb : (Coord.mk 90 0).distance ⟨90, 10⟩ = 0 := by
    simp only [Coord.distance_eq]
    rw [show ((90 : ℝ) - 90) * (Real.pi / 180) = 0 by ring,
      show ((90 : ℝ)) * (Real.pi / 180) = Real.pi / 2 by ring,
      Real.cos_zero, Real.cos_pi_div_two]
    norm_num [Real.sqrt_zero, Real.arcsin_zero]
  have hval : (Segment.mk ⟨89, 5⟩ ⟨90, 10⟩ none).distance_from_point ⟨90, 0⟩
      = ((Coord.mk 90 0).distance ⟨90, 10⟩, ⟨90, 10⟩) := by
    rw [Segment.distance_from_point_def, hfoot, if_neg hnc,
      if_neg (show ¬((Coord.mk 90 0).distance ⟨89, 5⟩
          < (Coord.mk 90 0).distance ⟨90, 10⟩) by
        rw [hdb]
        exact not_lt.mpr (Coord.distance_nonneg _ _))]
  refine ⟨by rw [hval], ?_, ?_⟩
  · refine ⟨0, le_refl 0, by norm_num, ?_⟩
    apply Coord.eq_iff.mpr
    constructor <;> norm_num
  · rw [hval]
    show (Coord.mk 89 5 - ⟨90, 0⟩).norm < (Coord.mk 90 10 - ⟨90, 0⟩).norm
    unfold Coord.norm
    simp only [Coord.sub_lat, Coord.sub_lon]
    apply Real.sqrt_lt_sqrt (by positivity)
    norm_num

theorem foldl_add_length (l : List Segment) (x : ℝ) :
    l.foldl (fun total segment => total + segment.length) x
      = x + (l.map Segment.length).sum := by
  induction l generalizing x with
  | nil => simp
  | cons s rest ih =>
      rw [List.foldl_cons, ih, List.map_cons, List.sum_cons]
      ring

theorem Road.length_eq_sum (r : Road) :
    r.length = (r.segments.map Segment.length).sum := by
  unfold Road.length
  rw [foldl_add_length]
  ring

theorem walkForward_of_none (p : Coord) (l : List Segment)
    (h : ∀ s ∈ l, ¬s.strictly_contains p) :
    walkForward p l = (l.map Segment.length).sum := by
  induction l with
  | nil => rfl
  | cons s rest ih =>
      rw [walkForward, if_neg (h s (by simp)), ih (fun t ht => h t (by simp [ht]))]
      simp

theorem walkBackward_of_none (p : Coord) (l : List Segment)
    (h : ∀ s ∈ l, ¬s.strictly_contains p) :
    walkBackward p l = (l.map Segment.length).sum := by
  induction l with
  | nil => rfl
  | cons s rest ih =>
      rw [walkBackward, if_neg (h s (by simp)), ih (fun t ht => h t (by simp [ht]))]
      simp

/-- Proof-infrastructure abstraction of the Cramer solve inside
`Segment.intersectionGeom`: the containment predicates and the six line
coefficients are taken as parameters so that the swap symmetry can be stated
once over plain reals.  `Segment.intersectionGeom` is definitionally an
instance of it. -/
def cramerCore (f g : Coord → Prop) (ap bp cp aq bq cq : ℝ) : Option Coord :=
  let over : ℝ := ap * bq - aq * bp
  if over = 0 then none
  else
    let ans : Coord := ⟨(bp * cq - bq * cp) / over, (aq * cp - ap * cq) / over⟩
    if f ans ∧ g ans then some ans else none

theorem cramerCore_swap (f g : Coord → Prop) (ap bp cp aq bq cq : ℝ) :
    cramerCore f g ap bp cp aq bq cq = cramerCore g f aq bq cq ap bp cp := by
  simp only [cramerCore]
  by_cases h : ap * bq - aq * bp = 0
  · rw [if_pos h, if_pos (by linear_combination -h)]
  · rw [if_neg h]
    have e1 : (aq * bp - ap * bq : ℝ) = -(ap * bq - aq * bp) := by ring
    rw [e1, if_neg (show ¬(-(ap * bq - aq * bp) = 0 : Prop) by
      rw [neg_eq_zero]; exact h)]
    have hlat : (bq * cp - bp * cq) / -(ap * bq - aq * bp)
        = (bp * cq - bq * cp) / (ap * bq - aq * bp) := by
      rw [show bq * cp - bp * cq = -(bp * cq - bq * cp) by ring, neg_div_neg_eq]
    have hlon : (ap * cq - aq * cp) / -(ap * bq - aq * bp)
        = (aq * cp - ap * cq) / (ap * bq - aq * bp) := by
      rw [show ap * cq - aq * cp = -(aq * cp - ap * cq) by ring, neg_div_neg_eq]
    rw [hlat, hlon]
    exact if_congr and_comm rfl rfl

theorem intersectionGeom_as_core (s t : Segment) :
    s.intersectionGeom t
      = cramerCore s.contains t.contains
          (s.b.lon - s.a.lon) (s.a.lat - s.b.lat)
          (-s.b.lat * (s.b.lon - s.a.lon) - s.b.lon * (s.a.lat - s.b.lat))
          (t.b.lon - t.a.lon) (t.a.lat - t.b.lat)
          (-t.b.lat * (t.b.lon - t.a.lon) - t.b.lon * (t.a.lat - t.b.lat)) := rfl

theorem intersectionGeom_comm (s t : Segment) :
    s.intersectionGeom t = t.intersectionGeom s := by
  rw [intersectionGeom_as_core s t, intersectionGeom_as_core t s, cramerCore_swap]

theorem is_contiguous_comm (s t : Segment) :
    s.is_contiguous t ↔ t.is_contiguous s := by
  unfold Segment.is_contiguous
  constructor
  · rintro ⟨h1, h2⟩
    exact ⟨fun ⟨x, y⟩ => h1 ⟨x.symm, y.symm⟩, by tauto⟩
  · rintro ⟨h1, h2⟩
    exact ⟨fun ⟨x, y⟩ => h1 ⟨x.symm, y.symm⟩, by tauto⟩

/-- The two crossing test segments `(1,1)-(4,4)` and `(1,3)-(3,1)` are not
contiguous, whatever their layers. -/
theorem test_pair_not_contiguous (L1 L2 : Option ℤ) :
    ¬(Segment.mk ⟨1, 1⟩ ⟨4, 4⟩ L1).is_contiguous (Segment.mk ⟨1, 3⟩ ⟨3, 1⟩ L2) := by
  intro h
  unfold Segment.is_contiguous at h
  rcases h with ⟨-, hc | hc | hc | hc⟩ <;> unfold Segment.contains at hc
  · rcases hc with ⟨-, h2⟩
    norm_num [TOLERANCE] at h2
  · rcases hc with ⟨-, h2⟩
    norm_num [TOLERANCE] at h2
  · rcases hc with ⟨-, h2⟩
    norm_num [TOLERANCE] at h2
  · rcases hc with ⟨h1, -⟩
    exact h1 (by right; left; norm_num [TOLERANCE])

/-- C1: when the receiver carries a layer tag, the segments are not
contiguous, and the layer tags differ, `intersection` is suppressed to `none`
regardless of geometry; when the segments are contiguous, the layers are
ignored and `intersection` is exactly the geometric test (so a touching
crossing is reported). -/
theorem intersection_layer_rule (s t : Segment) :
    (s.layer.isSome → ¬s.is_contiguous t → s.layer ≠ t.layer →
      s.intersection t = none)
    ∧ (s.is_contiguous t → s.intersection t = s.intersectionGeom t) := by
  constructor
  · intro h1 h2 h3
    unfold Segment.intersection
    rw [if_pos ⟨h1, h2, h3⟩]
  · intro hc
    unfold Segment.intersection
    rw [if_neg]
    rintro ⟨-, hnc, -⟩
    exact hnc hc

/-- Instance of the C1 theorem on the repository's
`segment_intersection_layer_test` data: suppression across layers 0 and -1
for the crossing pair, and no suppression for the contiguous pair touching
at `(1,1)`. -/
theorem intersection_layer_rule_check :
    (Segment.mk ⟨1, 1⟩ ⟨4, 4⟩ (some 0)).intersection
        (Segment.mk ⟨1, 3⟩ ⟨3, 1⟩ (some (-1))) = none
    ∧ (Segment.mk ⟨1, 1⟩ ⟨4, 4⟩ (some 0)).intersection
        (Segment.mk ⟨-4, -2⟩ ⟨1, 1⟩ (some (-1)))
      = (Segment.mk ⟨1, 1⟩ ⟨4, 4⟩ (some 0)).intersectionGeom
          (Segment.mk ⟨-4, -2⟩ ⟨1, 1⟩ (some (-1))) := by
  constructor
  · exact (intersection_layer_rule _ _).1 rfl
      (test_pair_not_contiguous (some 0) (some (-1))) (by norm_num)
  · apply (intersection_layer_rule _ _).2
    refine ⟨?_, Or.inr (Or.inl ?_)⟩
    · rintro ⟨h1, -⟩
      norm_num at h1
    · exact Segment.contains_a (Segment.mk ⟨1, 1⟩ ⟨4, 4⟩ (some 0))

/-- C3: segment intersection is symmetric when neither segment carries a
layer tag. -/
theorem intersection_comm_of_no_layer (a b : Segment)
    (ha : a.layer = none) (hb : b.layer = none) :
    a.intersection b = b.intersection a := by
  have hna : ¬(a.layer.isSome ∧ ¬a.is_contiguous b ∧ a.layer ≠ b.layer) := by
    rintro ⟨h1, -⟩
    rw [ha] at h1
    simp at h1
  have hnb : ¬(b.layer.isSome ∧ ¬b.is_contiguous a ∧ b.layer ≠ a.layer) := by
    rintro ⟨h1, -⟩
    rw [hb] at h1
    simp at h1
  unfold Segment.intersection
  rw [if_neg hna, if_neg hnb]
  exact intersectionGeom_comm a b

/-- Instance of the C3 theorem on the repository's
`segment_intersection_easy_test` segments. -/
theorem intersection_comm_of_no_layer_check :
    (Segment.mk ⟨1, 1⟩ ⟨4, 4⟩ none).intersection (Segment.mk ⟨1, 3⟩ ⟨3, 1⟩ none)
      = (Segment.mk ⟨1, 3⟩ ⟨3, 1⟩ none).intersection (Segment.mk ⟨1, 1⟩ ⟨4, 4⟩ none) :=
  intersection_comm_of_no_layer _ _ rfl rfl

/-- C9: the layer check reads only the receiver's tag, so for a
non-contiguous geometrically crossing pair with `s.layer` absent and
`t.layer` present, `s.intersection t` reports the crossing while
`t.intersection s` is suppressed — intersection is not symmetric for
mixed-layer pairs. -/
theorem intersection_layer_asymmetry (s t : Segment) (l : ℤ) (c : Coord)
    (hs : s.layer = none) (ht : t.layer = some l)
    (hc : ¬s.is_contiguous t) (hg : s.intersectionGeom t = some c) :
    s.intersection t = some c ∧ t.intersection s = none := by
  constructor
  · unfold Segment.intersection
    rw [if_neg]
    · exact hg
    · rintro ⟨h1, -⟩
      rw [hs] at h1
      simp at h1
  · unfold Segment.intersection
    rw [if_pos ⟨by rw [ht]; rfl,
      fun hcc => hc ((is_contiguous_comm s t).mpr hcc),
      by rw [ht, hs]; simp⟩]

/-- Instance of the C9 theorem: the crossing pair of the easy intersection
test, with a layer tag only on the second segment. -/
theorem intersection_layer_asymmetry_check :
    (Segment.mk ⟨1, 1⟩ ⟨4, 4⟩ none).intersection (Segment.mk ⟨1, 3⟩ ⟨3, 1⟩ (some 0))
        = some ⟨2, 2⟩
    ∧ (Segment.mk ⟨1, 3⟩ ⟨3, 1⟩ (some 0)).intersection (Segment.mk ⟨1, 1⟩ ⟨4, 4⟩ none)
        = none :=
  intersection_layer_asymmetry _ _ 0 ⟨2, 2⟩ rfl rfl
    (test_pair_not_contiguous none (some 0))
    (by norm_num [Segment.intersectionGeom, Segment.contains, TOLERANCE])

/-- C6: if no segment of the road strictly contains the point, `length_from`
accumulates the full road length (the sum of all segment lengths) in either
direction. -/
theorem length_from_full_of_no_strict (r : Road) (p : Coord) (d : Direction)
    (h : ∀ s ∈ r.segments, ¬s.strictly_contains p) :
    r.length_from p d = r.length := by
  rw [Road.length_eq_sum]
  cases d with
  | Forward =>
      show walkForward p r.segments = _
      exact walkForward_of_none p r.segments h
  | Backward =>
      show walkBackward p r.segments.reverse = _
      rw [walkBackward_of_none p r.segments.reverse
        (fun s hs => h s (List.mem_reverse.mp hs))]
      rw [List.map_reverse, List.sum_reverse]

theorem walkForward_append_of_none (p : Coord) (l rest : List Segment)
    (h : ∀ s ∈ l, ¬s.strictly_contains p) :
    walkForward p (l ++ rest) = (l.map Segment.length).sum + walkForward p rest := by
  induction l with
  | nil => simp
  | cons s l ih =>
      rw [List.cons_append, walkForward, if_neg (h s (by simp)),
        ih (fun t ht => h t (by simp [ht]))]
      simp only [List.map_cons, List.sum_cons]
      ring

theorem walkBackward_append_of_none (p : Coord) (l rest : List Segment)
    (h : ∀ s ∈ l, ¬s.strictly_contains p) :
    walkBackward p (l ++ rest) = (l.map Segment.length).sum + walkBackward p rest := by
  induction l with
  | nil => simp
  | cons s l ih =>
      rw [List.cons_append, walkBackward, if_neg (h s (by simp)),
        ih (fun t ht => h t (by simp [ht]))]
      simp only [List.map_cons, List.sum_cons]
      ring

/-- C5 (amended): when exactly one segment `s` of the road strictly contains
`p` (the list splits as `l₁ ++ s :: l₂` with no strict containment in `l₁`
or `l₂`), the two directional partial lengths add up to the road length
minus `s.length` plus the two haversine distances from `p` to `s`'s
endpoints; the claimed `≈ length()` within 0.1 km holds only when the
haversine triangle defect of `s` at `p` is below that tolerance, which the
flat containment test does not guarantee. -/
theorem length_from_split (r : Road) (p : Coord) (l₁ l₂ : List Segment) (s : Segment)
    (hdec : r.segments = l₁ ++ s :: l₂)
    (hs : s.strictly_contains p)
    (h₁ : ∀ t ∈ l₁, ¬t.strictly_contains p)
    (h₂ : ∀ t ∈ l₂, ¬t.strictly_contains p) :
    r.length_from p Direction.Forward + r.length_from p Direction.Backward
      = r.length - s.length + s.a.distance p + s.b.distance p := by
  have hF : r.length_from p Direction.Forward
      = (l₁.map Segment.length).sum + s.a.distance p := by
    show walkForward p r.segments = _
    rw [hdec, walkForward_append_of_none p l₁ _ h₁, walkForward, if_pos hs]
  have hB : r.length_from p Direction.Backward
      = (l₂.map Segment.length).sum + s.b.distance p := by
    show walkBackward p r.segments.reverse = _
    have hrev : (l₁ ++ s :: l₂).reverse = l₂.reverse ++ s :: l₁.reverse := by
      simp
    rw [hdec, hrev,
      walkBackward_append_of_none p l₂.reverse _
        (fun t ht => h₂ t (List.mem_reverse.mp ht)),
      walkBackward, if_pos hs]
    simp [List.map_reverse, List.sum_reverse]
    rfl
  rw [hF, hB, Road.length_eq_sum, hdec]
  simp only [List.map_append, List.sum_append, List.map_cons, List.sum_cons]
  ring

/-- Instance of the C5 amended theorem on the repository's
`partial_length_test` road and point. -/
theorem length_from_split_check :
    (Road.mk [Segment.mk ⟨1, 1⟩ ⟨4, 4⟩ none, Segment.mk ⟨4, 4⟩ ⟨5, 4⟩ none]
        none false false).length_from ⟨2, 2⟩ Direction.Forward
      + (Road.mk [Segment.mk ⟨1, 1⟩ ⟨4, 4⟩ none, Segment.mk ⟨4, 4⟩ ⟨5, 4⟩ none]
        none false false).length_from ⟨2, 2⟩ Direction.Backward
    = (Road.mk [Segment.mk ⟨1, 1⟩ ⟨4, 4⟩ none, Segment.mk ⟨4, 4⟩ ⟨5, 4⟩ none]
        none false false).length
      - (Segment.mk ⟨1, 1⟩ ⟨4, 4⟩ none).length
      + (Coord.mk 1 1).distance ⟨2, 2⟩ + (Coord.mk 4 4).distance ⟨2, 2⟩ := by
  apply length_from_split _ _ [] [Segment.mk ⟨4, 4⟩ ⟨5, 4⟩ none]
      (Segment.mk ⟨1, 1⟩ ⟨4, 4⟩ none) rfl
  · refine ⟨?_, ?_, ?_, ?_⟩
    · rintro ⟨-, hl⟩
      norm_num [TOLERANCE] at hl
    · rintro ⟨hl, -⟩
      norm_num [TOLERANCE] at hl
    · rintro (hb | hb | hb | hb) <;> norm_num [TOLERANCE] at hb
    · norm_num [TOLERANCE]
  · intro t ht
    exact absurd ht (by simp)
  · intro t ht
    simp only [List.mem_singleton] at ht
    subst ht
    rintro ⟨-, -, hb, -⟩
    apply hb
    left
    norm_num [TOLERANCE]

/-- C5 counterexample: for the single-segment road from `(60,-90)` to
`(60,90)` and the strictly contained midpoint `(60,0)`, the two directional
partial lengths exceed the road length by thousands of kilometers, far more
than the claimed 0.1 km tolerance: the flat segment at latitude 60 is not a
great circle. -/
theorem length_from_additivity_fails :
    (Segment.mk ⟨60, -90⟩ ⟨60, 90⟩ none).strictly_contains ⟨60, 0⟩
    ∧ 0.1 < |(Road.mk [Segment.mk ⟨60, -90⟩ ⟨60, 90⟩ none] none false false).length_from
          ⟨60, 0⟩ Direction.Forward
        + (Road.mk [Segment.mk ⟨60, -90⟩ ⟨60, 90⟩ none] none false false).length_from
          ⟨60, 0⟩ Direction.Backward
        - (Road.mk [Segment.mk ⟨60, -90⟩ ⟨60, 90⟩ none] none false false).length| := by
  have hstrict : (Segment.mk ⟨60, -90⟩ ⟨60, 90⟩ none).strictly_contains ⟨60, 0⟩ := by
    refine ⟨?_, ?_, ?_, ?_⟩
    · rintro ⟨-, hl⟩
      norm_num [TOLERANCE] at hl
    · rintro ⟨-, hl⟩
      norm_num [TOLERANCE] at hl
    · rintro (hb | hb | hb | hb) <;> norm_num [TOLERANCE] at hb
    · norm_num [TOLERANCE]
  refine ⟨hstrict, ?_⟩
  have hF : (Road.mk [Segment.mk ⟨60, -90⟩ ⟨60, 90⟩ none]
      none false false).length_from ⟨60, 0⟩ Direction.Forward
      = (Coord.mk 60 (-90)).distance ⟨60, 0⟩ := by
    show walkForward _ _ = _
    rw [walkForward, if_pos hstrict]
  have hB : (Road.mk [Segment.mk ⟨60, -90⟩ ⟨60, 90⟩ none]
      none false false).length_from ⟨60, 0⟩ Direction.Backward
      = (Coord.mk 60 90).distance ⟨60, 0⟩ := by
    show walkBackward _ ([Segment.mk ⟨60, -90⟩ ⟨60, 90⟩ none].reverse) = _
    rw [List.reverse_singleton, walkBackward, if_pos hstrict]
    rfl
  have hL : (Road.mk [Segment.mk ⟨60, -90⟩ ⟨60, 90⟩ none]
      none false false).length = (Coord.mk 60 (-90)).distance ⟨60, 90⟩ := by
    show List.foldl _ 0 _ = _
    simp [Segment.length]
  rw [hF, hB, hL]
  have hd1 : (Coord.mk 60 (-90)).distance ⟨60, 0⟩
      = 12742 * Real.arcsin (Real.sqrt (1 / 8)) := by
    simp only [Coord.distance_eq]
    rw [show ((60 : ℝ) - 60) * (Real.pi / 180) = 0 by ring,
      show ((60 : ℝ)) * (Real.pi / 180) = Real.pi / 3 by ring,
      show ((0 : ℝ) - -90) * (Real.pi / 180) = Real.pi / 2 by ring,
      Real.cos_zero, Real.cos_pi_div_three, Real.cos_pi_div_two]
    norm_num
  have hd2 : (Coord.mk 60 90).distance ⟨60, 0⟩
      = 12742 * Real.arcsin (Real.sqrt (1 / 8)) := by
    simp only [Coord.distance_eq]
    rw [show ((60 : ℝ) - 60) * (Real.pi / 180) = 0 by ring,
      show ((60 : ℝ)) * (Real.pi / 180) = Real.pi / 3 by ring,
      show ((0 : ℝ) - 90) * (Real.pi / 180) = -(Real.pi / 2) by ring,
      Real.cos_zero, Real.cos_neg, Real.cos_pi_div_three, Real.cos_pi_div_two]
    norm_num
  have hd3 : (Coord.mk 60 (-90)).distance ⟨60, 90⟩ = 12742 * (Real.pi / 6) := by
    simp only [Coord.distance_eq]
    rw [show ((60 : ℝ) - 60) * (Real.pi / 180) = 0 by ring,
      show ((60 : ℝ)) * (Real.pi / 180) = Real.pi / 3 by ring,
      show ((90 : ℝ) - -90) * (Real.pi / 180) = Real.pi by ring,
      Real.cos_zero, Real.cos_pi_div_three, Real.cos_pi]
    rw [show (0.5 - 1 / 2 + 1 / 2 * (1 / 2) * (1 - -1) / 2 : ℝ) = (1 / 2) ^ 2 by
      norm_num]
    rw [Real.sqrt_sq (by norm_num : (0 : ℝ) ≤ 1 / 2)]
    rw [show (1 / 2 : ℝ) = Real.sin (Real.pi / 6) by rw [Real.sin_pi_div_six],
      Real.arcsin_sin (by linarith [Real.pi_pos]) (by linarith [Real.pi_pos])]
  rw [hd1, hd2, hd3]
  have hsq : (0.35 : ℝ) ≤ Real.sqrt (1 / 8) := by
    rw [Real.le_sqrt' (by norm_num)]
    norm_num
  have hle1 : Real.sqrt (1 / 8) ≤ 1 := by
    rw [show (1 : ℝ) = Real.sqrt 1 by rw [Real.sqrt_one]]
    exact Real.sqrt_le_sqrt (by norm_num)
  have harc : (0.35 : ℝ) ≤ Real.arcsin (Real.sqrt (1 / 8)) := by
    have hpos : 0 < Real.arcsin (Real.sqrt (1 / 8)) :=
      Real.arcsin_pos.mpr (by positivity)
    have hsin := Real.sin_lt hpos
    rw [Real.sin_arcsin (by linarith [Real.sqrt_nonneg (1 / 8 : ℝ)]) hle1] at hsin
    linarith
  have hpi := Real.pi_lt_d2
  have hpos2 : (0.1 : ℝ) < 12742 * Real.arcsin (Real.sqrt (1 / 8))
      + 12742 * Real.arcsin (Real.sqrt (1 / 8)) - 12742 * (Real.pi / 6) := by
    linarith
  calc (0.1 : ℝ) < _ := hpos2
    _ ≤ _ := le_abs_self _

/-- Instance of the C6 theorem: a point far outside the test segment leaves
the full length in both directions. -/
theorem length_from_full_of_no_strict_check :
    (Road.mk [Segment.mk ⟨1, 1⟩ ⟨4, 4⟩ none] none false false).length_from
        ⟨10, 10⟩ Direction.Forward
      = (Road.mk [Segment.mk ⟨1, 1⟩ ⟨4, 4⟩ none] none false false).length
    ∧ (Road.mk [Segment.mk ⟨1, 1⟩ ⟨4, 4⟩ none] none false false).length_from
        ⟨10, 10⟩ Direction.Backward
      = (Road.mk [Segment.mk ⟨1, 1⟩ ⟨4, 4⟩ none] none false false).length := by
  have h : ∀ s ∈ [Segment.mk ⟨1, 1⟩ ⟨4, 4⟩ none],
      ¬s.strictly_contains (⟨10, 10⟩ : Coord) := by
    intro s hs
    simp only [List.mem_singleton] at hs
    subst hs
    rintro ⟨-, -, hbox, -⟩
    apply hbox
    right
    right
    right
    norm_num [TOLERANCE]
  exact ⟨length_from_full_of_no_strict _ _ _ h, length_from_full_of_no_strict _ _ _ h⟩

end
